import Mathlib

/-!
Verification development for the mpopt MPS/DMRG core.

The Python sources (mpopt/mps/explicit.py, mpopt/mps/canonical.py,
mpopt/optimizer/dmrg.py) are embedded shallowly: numpy arrays become
NDArray (a shape plus an entry function over multi-indices, with
rational entries standing for the real/complex floats of the source;
complex conjugation is the identity on this real-valued model),
python lists become Lean lists, methods that can raise become
Except-valued functions, and a method that assigns to self is modelled
as a state transformer returning the post-call receiver next to its
result.  numpy contractions (tensordot / einsum) are written as the
explicit sums over the contracted index ranges that they compute.
-/

/-- Model of a numpy ndarray: a shape together with an entry function on
multi-indices.  Entries are rationals (exact stand-ins for the floats of
the source); indices outside the shape are simply unused. -/
@[ext]
structure NDArray where
  shape : List ℕ
  ent : List ℕ → ℚ

instance : Inhabited NDArray := ⟨⟨[], fun _ => 0⟩⟩

/-- Dimension of axis i (shape[i]); 0 when the axis does not exist. -/
def NDArray.dim (t : NDArray) (i : ℕ) : ℕ := t.shape.getD i 0

/-- Number of axes, len(t.shape) in the source. -/
def NDArray.rank (t : NDArray) : ℕ := t.shape.length

/-- np.transpose with no axes argument: reverses all axes. -/
def transposeND (t : NDArray) : NDArray :=
  ⟨t.shape.reverse, fun ix => t.ent ix.reverse⟩

theorem transposeND_transposeND (t : NDArray) : transposeND (transposeND t) = t := by
  apply NDArray.ext
  · simp [transposeND]
  · funext ix
    simp [transposeND]

/-- Python list indexing with a default (the lists we index are accessed
only at in-range positions on the paths the source reaches). -/
def getT (l : List NDArray) (i : ℕ) : NDArray := l.getD i default

/-- singular_values[i] of an explicit MPS, as a rational vector. -/
def getV (l : List (List ℚ)) (i : ℕ) : List ℚ := l.getD i []

/-- Entry i of a rational vector, 0 out of range. -/
def getQ (v : List ℚ) (i : ℕ) : ℚ := v.getD i 0

/-- Sum of squares of a vector; np.linalg.norm(v) is its square root. -/
def sumSq (v : List ℚ) : ℚ := (v.map fun x => x * x).sum

theorem sumSq_nonneg (v : List ℚ) : 0 ≤ sumSq v := by
  induction v with
  | nil => simp [sumSq]
  | cons x xs ih =>
      simp only [sumSq, List.map_cons, List.sum_cons]
      have hx : 0 ≤ x * x := mul_self_nonneg x
      exact add_nonneg hx ih

/-- np.linalg.norm of a vector, i.e. the Euclidean norm
sqrt(sum of squares), as a real number. -/
noncomputable def euclidNorm (v : List ℚ) : ℝ := Real.sqrt ((sumSq v : ℚ) : ℝ)

/-- Decidable form of the norm test of ExplicitMPS.__init__ (explicit.py
lines 94-100): abs(np.linalg.norm(v) - 1) > tolerance.  Stated on the
squares so that it is decidable over the rationals;
svNormDeviates_iff_sqrt proves it equal to the square-root form. -/
def svNormDeviates (v : List ℚ) (tol : ℚ) : Prop :=
  (1 + tol) ^ 2 < sumSq v ∨ (tol < 1 ∧ sumSq v < (1 - tol) ^ 2)

instance (v : List ℚ) (tol : ℚ) : Decidable (svNormDeviates v tol) := by
  unfold svNormDeviates; infer_instance

theorem svNormDeviates_iff_sqrt (v : List ℚ) (tol : ℚ) (ht : 0 ≤ tol) :
    svNormDeviates v tol ↔ (tol : ℝ) < |euclidNorm v - 1| := by
  have hS : (0 : ℝ) ≤ ((sumSq v : ℚ) : ℝ) := by exact_mod_cast sumSq_nonneg v
  have habs : (tol : ℝ) < |euclidNorm v - 1| ↔
      (1 : ℝ) + tol < euclidNorm v ∨ euclidNorm v < 1 - tol := by
    rw [lt_abs]
    constructor
    · intro h
      rcases h with h | h
      · left; linarith
      · right; linarith
    · intro h
      rcases h with h | h
      · left; linarith
      · right; linarith
  rw [habs]
  constructor
  · intro h
    rcases h with h | ⟨ht1, h⟩
    · left
      have h1t : (0 : ℝ) ≤ 1 + (tol : ℝ) := by positivity
      rw [euclidNorm]
      rw [Real.lt_sqrt h1t]
      calc ((1 : ℝ) + tol) ^ 2 = (((1 + tol : ℚ)) ^ 2 : ℚ) := by push_cast; ring
        _ < ((sumSq v : ℚ) : ℝ) := by exact_mod_cast h
    · right
      have h1t : (0 : ℝ) < 1 - (tol : ℝ) := by
        have : (tol : ℝ) < 1 := by exact_mod_cast ht1
        linarith
      rw [euclidNorm, Real.sqrt_lt' h1t]
      calc ((sumSq v : ℚ) : ℝ) < (((1 - tol : ℚ)) ^ 2 : ℚ) := by exact_mod_cast h
        _ = ((1 : ℝ) - tol) ^ 2 := by push_cast; ring
  · intro h
    rcases h with h | h
    · left
      have h1t : (0 : ℝ) ≤ 1 + (tol : ℝ) := by positivity
      rw [euclidNorm, Real.lt_sqrt h1t] at h
      have : ((1 + tol : ℚ) : ℝ) ^ 2 < ((sumSq v : ℚ) : ℝ) := by push_cast at h ⊢; linarith
      exact_mod_cast this
    · right
      have hnn := Real.sqrt_nonneg ((sumSq v : ℚ) : ℝ)
      have ht1 : (tol : ℝ) < 1 := by
        by_contra hc
        push_neg at hc
        rw [euclidNorm] at h
        linarith
      refine ⟨by exact_mod_cast ht1, ?_⟩
      have h1t : (0 : ℝ) < 1 - (tol : ℝ) := by linarith
      rw [euclidNorm, Real.sqrt_lt' h1t] at h
      have : ((sumSq v : ℚ) : ℝ) < ((1 - tol : ℚ) : ℝ) ^ 2 := by push_cast at h ⊢; linarith
      exact_mod_cast this

/-- Explicit-form MPS (explicit.py, class ExplicitMPS): per-site tensors
and per-bond singular-value vectors, plus the numeric configuration. -/
structure ExplicitMPS where
  tensors : List NDArray
  singularValues : List (List ℚ)
  tolerance : ℚ
  chiMax : ℕ

/-- len(mps) / mps.num_sites. -/
def ExplicitMPS.numSites (e : ExplicitMPS) : ℕ := e.tensors.length

/-- ExplicitMPS.__init__ (explicit.py lines 60-100).  The first three
guards model the implicit IndexErrors of the attribute computations that
run before the explicit checks: bond_dimensions reads shape[2] of every
tensor but the last (line 71), phys_dimensions reads shape[1] of every
tensor (line 72), and dtype reads tensors[0] (line 75).  Then come the
three explicit ValueError checks: the length correspondence (line 79),
the rank-3 check (line 87) and the singular-value norm check (line 94). -/
def explicitInit (tensors : List NDArray) (singularValues : List (List ℚ))
    (tolerance : ℚ) (chiMax : ℕ) : Except String ExplicitMPS :=
  if ¬ (∀ t ∈ tensors.take (tensors.length - 1), 3 ≤ t.rank) then
    .error "IndexError: tuple index out of range (shape[2])"
  else if ¬ (∀ t ∈ tensors, 2 ≤ t.rank) then
    .error "IndexError: tuple index out of range (shape[1])"
  else if tensors.length = 0 then
    .error "IndexError: list index out of range (tensors[0])"
  else if (tensors.length : ℤ) ≠ (singularValues.length : ℤ) - 1 then
    .error "ValueError: number of singular value matrices must be number of tensors + 1"
  else if ¬ (∀ t ∈ tensors, t.rank = 3) then
    .error "ValueError: a valid MPS tensor must have 3 legs"
  else if ∃ v ∈ singularValues, svNormDeviates v tolerance then
    .error "ValueError: the norm of each singular values tensor must be 1"
  else
    .ok ⟨tensors, singularValues, tolerance, chiMax⟩

/-- Well-formedness of an explicit MPS: exactly the conditions under
which explicitInit succeeds (nonempty, matching lengths, rank-3 tensors,
unit-norm singular-value vectors within tolerance). -/
def ExplicitWF (e : ExplicitMPS) : Prop :=
  e.tensors.length ≠ 0 ∧
  (e.tensors.length : ℤ) = (e.singularValues.length : ℤ) - 1 ∧
  (∀ t ∈ e.tensors, t.rank = 3) ∧
  ∀ v ∈ e.singularValues, ¬ svNormDeviates v e.tolerance

instance (e : ExplicitMPS) : Decidable (ExplicitWF e) := by
  unfold ExplicitWF; infer_instance

theorem explicitInit_ok_of_wf (e : ExplicitMPS) (h : ExplicitWF e) :
    explicitInit e.tensors e.singularValues e.tolerance e.chiMax = .ok e := by
  obtain ⟨h1, h2, h3, h4⟩ := h
  have g1 : ∀ t ∈ e.tensors.take (e.tensors.length - 1), 3 ≤ t.rank := by
    intro t ht
    exact le_of_eq (h3 t (List.mem_of_mem_take ht)).symm
  have g2 : ∀ t ∈ e.tensors, 2 ≤ t.rank := by
    intro t ht
    rw [h3 t ht]
    norm_num
  have g6 : ¬ ∃ v ∈ e.singularValues, svNormDeviates v e.tolerance := by
    rintro ⟨v, hv, hdev⟩
    exact h4 v hv hdev
  unfold explicitInit
  rw [if_neg (not_not_intro g1), if_neg (not_not_intro g2), if_neg h1,
    if_neg (not_not_intro h2), if_neg (not_not_intro h3), if_neg g6]

/-- C4: ExplicitMPS construction raises an error exactly when one of the
following holds: the number of singular-value vectors is not the number
of tensors plus one, some tensor does not have exactly 3 legs, or some
singular-value vector's Euclidean norm deviates from 1 by more than
tolerance; when none holds, construction succeeds and stores the given
tensors and singular values unchanged.  (Amended: construction also
raises, an IndexError at the tensors[0] access of line 75, when the
tensor list is empty; the biconditional below adds that case.) -/
theorem explicitInit_ok_iff (ts : List NDArray) (sv : List (List ℚ)) (tol : ℚ) (chi : ℕ)
    (ht : 0 ≤ tol) :
    ((explicitInit ts sv tol chi).isOk = true ↔
      (ts.length ≠ 0 ∧ (ts.length : ℤ) = (sv.length : ℤ) - 1 ∧ (∀ t ∈ ts, t.rank = 3) ∧
        ∀ v ∈ sv, |euclidNorm v - 1| ≤ (tol : ℝ))) ∧
    ∀ e, explicitInit ts sv tol chi = .ok e → e.tensors = ts ∧ e.singularValues = sv := by
  constructor
  · constructor
    · intro h
      unfold explicitInit at h
      split_ifs at h with g1 g2 g3 g4 g5 g6
      all_goals try (simp [Except.isOk, Except.toBool] at h)
      refine ⟨g3, not_ne_iff.mp g4, g5, ?_⟩
      intro v hv
      have hnd : ¬ svNormDeviates v tol := fun hdev => g6 ⟨v, hv, hdev⟩
      exact not_lt.mp (fun hlt => hnd ((svNormDeviates_iff_sqrt v tol ht).mpr hlt))
    · rintro ⟨h1, h2, h3, h4⟩
      have hwf : ExplicitWF ⟨ts, sv, tol, chi⟩ := by
        refine ⟨h1, h2, h3, ?_⟩
        intro v hv hdev
        exact absurd ((svNormDeviates_iff_sqrt v tol ht).mp hdev) (not_lt.mpr (h4 v hv))
      have hok := explicitInit_ok_of_wf ⟨ts, sv, tol, chi⟩ hwf
      rw [show explicitInit ts sv tol chi = .ok ⟨ts, sv, tol, chi⟩ from hok]
      rfl
  · intro e he
    unfold explicitInit at he
    split_ifs at he with g1 g2 g3 g4 g5 g6
    all_goals first
      | exact Except.noConfusion he
      | (injection he with he1; exact ⟨congrArg ExplicitMPS.tensors he1.symm ▸ rfl,
          congrArg ExplicitMPS.singularValues he1.symm ▸ rfl⟩)

/-- Shape-(1,2,1) product-state site tensor with entries [[1],[0]]. -/
def tensorP : NDArray := ⟨[1, 2, 1], fun ix => if ix = [0, 0, 0] then 1 else 0⟩

/-- C4 counterexample: for the empty tensor list with the single
unit-norm singular-value vector [1.0], none of the three conditions of
the claim holds (the length condition 0 = 1 - 1 is satisfied, there is
no tensor to violate rank 3, and the only vector has norm exactly 1),
yet construction raises (an IndexError at the tensors[0] access). -/
theorem explicitInit_empty_raises :
    (explicitInit [] [[1]] (1 / 1000000000000) 10000).isOk = false ∧
    ((([] : List NDArray).length : ℤ) = (([[(1 : ℚ)]].length : ℤ) - 1)) ∧
    |euclidNorm [1] - 1| ≤ ((1 / 1000000000000 : ℚ) : ℝ) := by
  refine ⟨by with_unfolding_all rfl, by norm_num, ?_⟩
  have h1 : euclidNorm [1] = 1 := by
    have hs : sumSq [(1 : ℚ)] = 1 := by with_unfolding_all rfl
    rw [euclidNorm, hs]
    push_cast
    exact Real.sqrt_one
  rw [h1]
  norm_num

/-- C4 witness: a concrete instance on which construction succeeds, by
the amended biconditional. -/
theorem explicitInit_ok_iff_witness :
    (explicitInit [tensorP] [[1], [1]] (1 / 1000000000000) 10000).isOk = true := by
  refine ((explicitInit_ok_iff [tensorP] [[1], [1]] (1 / 1000000000000) 10000
    (by norm_num)).1).mpr ⟨by norm_num, by norm_num, ?_, ?_⟩
  · intro t ht
    simp only [List.mem_singleton] at ht
    subst ht
    rfl
  · intro v hv
    have hv1 : v = [1] := by
      simp only [List.mem_cons, List.not_mem_nil, or_false] at hv
      rcases hv with rfl | rfl <;> rfl
    subst hv1
    have h1 : euclidNorm [1] = 1 := by
      have hs : sumSq [(1 : ℚ)] = 1 := by with_unfolding_all rfl
      rw [euclidNorm, hs]
      push_cast
      exact Real.sqrt_one
    rw [h1]
    norm_num

/-- ExplicitMPS.reverse (explicit.py lines 119-127): reversed site order
with every tensor fully transposed, reversed singular-value list, rebuilt
through the validating constructor. -/
def explicitReverse (e : ExplicitMPS) : Except String ExplicitMPS :=
  explicitInit (e.tensors.reverse.map transposeND) e.singularValues.reverse
    e.tolerance e.chiMax

/-- The value ExplicitMPS.reverse returns when construction succeeds. -/
def explicitReverseVal (e : ExplicitMPS) : ExplicitMPS :=
  ⟨e.tensors.reverse.map transposeND, e.singularValues.reverse, e.tolerance, e.chiMax⟩

theorem explicitWF_reverseVal (e : ExplicitMPS) (h : ExplicitWF e) :
    ExplicitWF (explicitReverseVal e) := by
  obtain ⟨h1, h2, h3, h4⟩ := h
  refine ⟨?_, ?_, ?_, ?_⟩
  · simpa [explicitReverseVal] using h1
  · simpa [explicitReverseVal] using h2
  · intro t ht
    simp only [explicitReverseVal, List.mem_map, List.mem_reverse] at ht
    obtain ⟨s, hs, rfl⟩ := ht
    have := h3 s hs
    simp [transposeND, NDArray.rank] at this ⊢
    exact this
  · intro v hv
    simp only [explicitReverseVal, List.mem_reverse] at hv
    exact h4 v hv

theorem explicitReverseVal_involution (e : ExplicitMPS) :
    explicitReverseVal (explicitReverseVal e) = e := by
  cases e with
  | mk ts sv tol chi =>
      simp only [explicitReverseVal]
      congr 1
      · rw [← List.map_reverse, List.reverse_reverse, List.map_map]
        have hid : transposeND ∘ transposeND = id := funext transposeND_transposeND
        rw [hid, List.map_id]
      · exact List.reverse_reverse sv

/-- C6: reverse() returns an MPS whose site order is reversed, whose each
tensor has its two virtual legs swapped with the physical leg untouched,
and whose singular-value list is reversed; and reverse is an involution:
reverse().reverse() reconstructs the original tensors and singular values
exactly. -/
theorem explicitReverse_spec (e : ExplicitMPS) (h : ExplicitWF e) :
    explicitReverse e = .ok (explicitReverseVal e) ∧
    (explicitReverseVal e).tensors = e.tensors.reverse.map transposeND ∧
    (explicitReverseVal e).singularValues = e.singularValues.reverse ∧
    (∀ t ∈ e.tensors, (transposeND t).shape = t.shape.reverse ∧
      ∀ i j k : ℕ, (transposeND t).ent [i, j, k] = t.ent [k, j, i]) ∧
    explicitReverse (explicitReverseVal e) = .ok e := by
  refine ⟨?_, rfl, rfl, ?_, ?_⟩
  · exact explicitInit_ok_of_wf (explicitReverseVal e) (explicitWF_reverseVal e h)
  · intro t _
    exact ⟨rfl, fun i j k => rfl⟩
  · have hok := explicitInit_ok_of_wf (explicitReverseVal (explicitReverseVal e))
      (explicitWF_reverseVal (explicitReverseVal e) (explicitWF_reverseVal e h))
    have hre : explicitReverse (explicitReverseVal e) =
        Except.ok (explicitReverseVal (explicitReverseVal e)) := hok
    rw [hre, explicitReverseVal_involution e]

/-- C6 witness: the involution applied to a concrete one-site MPS. -/
theorem explicitReverse_spec_witness :
    explicitReverse (explicitReverseVal ⟨[tensorP], [[1], [1]], 1 / 1000000000000, 10000⟩) =
      .ok ⟨[tensorP], [[1], [1]], 1 / 1000000000000, 10000⟩ := by
  refine (explicitReverse_spec ⟨[tensorP], [[1], [1]], 1 / 1000000000000, 10000⟩ ?_).2.2.2.2
  refine ⟨by norm_num, by norm_num, ?_, ?_⟩
  · intro t ht
    simp only [List.mem_singleton] at ht
    subst ht
    rfl
  · intro v hv
    have hv1 : v = [1] := by
      simp only [List.mem_cons, List.not_mem_nil, or_false] at hv
      rcases hv with rfl | rfl <;> rfl
    subst hv1
    intro hdev
    rcases hdev with hd | ⟨_, hd⟩
    · revert hd
      with_unfolding_all decide
    · revert hd
      with_unfolding_all decide

/-- The xlogx helper of ExplicitMPS.entanglement_entropy (explicit.py
lines 282-285): 0 at 0 exactly, x * log x otherwise. -/
noncomputable def xlogx (x : ℚ) : ℝ := if x = 0 then 0 else (x : ℝ) * Real.log (x : ℝ)

/-- The zeroing step of entanglement_entropy (explicit.py line 291):
singular values strictly below tolerance are set to exactly zero. -/
def zeroBelow (v : List ℚ) (tol : ℚ) : List ℚ := v.map fun x => if x < tol then 0 else x

/-- ExplicitMPS.entanglement_entropy (explicit.py lines 279-296): for
bond in range(num_bonds), zero out sub-tolerance singular values of
singular_values[bond], square elementwise, and return minus the sum of
xlogx over the squares. -/
noncomputable def entanglementEntropy (e : ExplicitMPS) : List ℝ :=
  (List.range (e.numSites - 1)).map fun bond =>
    -((((zeroBelow (getV e.singularValues bond) e.tolerance).map fun s => s * s).map
        xlogx).sum)

/-- Spec-side definition: the von Neumann entropy of the squared
singular-value spectrum at a bond, with the 0 log 0 = 0 convention
applied exactly and singular values strictly below tolerance first set
to exactly zero. -/
noncomputable def vonNeumannEntropy (spectrum : List ℚ) (tol : ℚ) : ℝ :=
  -((spectrum.map fun s =>
      xlogx ((if s < tol then 0 else s) * (if s < tol then 0 else s))).sum)

/-- C7: entanglement_entropy() returns, for each of the num_sites - 1
bonds, the von Neumann entropy of the squared singular-value spectrum at
that bond, with sub-tolerance singular values first zeroed and the
0 log 0 = 0 convention exact. -/
theorem entanglementEntropy_spec (e : ExplicitMPS) :
    (entanglementEntropy e).length = e.numSites - 1 ∧
    (∀ b, b < e.numSites - 1 → (entanglementEntropy e).getD b 0 =
      vonNeumannEntropy (getV e.singularValues b) e.tolerance) ∧
    xlogx 0 = 0 := by
  refine ⟨by simp [entanglementEntropy], ?_, by simp [xlogx]⟩
  intro b hb
  have hget : (entanglementEntropy e).getD b 0 =
      -((((zeroBelow (getV e.singularValues b) e.tolerance).map fun s => s * s).map
          xlogx).sum) := by
    unfold entanglementEntropy
    rw [List.getD_eq_getElem?_getD, List.getElem?_map, List.getElem?_range hb]
    rfl
  rw [hget]
  unfold vonNeumannEntropy zeroBelow
  rw [List.map_map, List.map_map]
  rfl

/-- Two-site explicit MPS over trivial bonds, used as a concrete input. -/
def expl2 : ExplicitMPS := ⟨[tensorP, tensorP], [[1], [1], [1]], 1 / 1000000000000, 10000⟩

/-- C7 witness: the theorem applied to a concrete two-site MPS. -/
theorem entanglementEntropy_spec_witness :
    (entanglementEntropy expl2).length = 1 ∧
    (entanglementEntropy expl2).getD 0 0 = vonNeumannEntropy [1] (1 / 1000000000000) := by
  exact ⟨(entanglementEntropy_spec expl2).1,
    (entanglementEntropy_spec expl2).2.1 0 (by norm_num [expl2, ExplicitMPS.numSites])⟩

/-- np.tensordot(np.diag(v), t, (1, 0)) (explicit.py lines 151-153): the
second axis of diag(v) is summed against the first axis of t, giving a
rank-3 result of shape (len(v), t.shape[1], t.shape[2]). -/
def diagLeftContract (v : List ℚ) (t : NDArray) : NDArray :=
  ⟨[v.length, t.dim 1, t.dim 2], fun ix =>
    match ix with
    | [i, j, k] =>
        Finset.sum (Finset.range v.length) fun m =>
          (if i = m then getQ v m else 0) * t.ent [m, j, k]
    | _ => 0⟩

/-- np.tensordot(t, np.diag(v), (2, 0)) (explicit.py lines 164-166): the
third axis of t is summed against the first axis of diag(v). -/
def diagRightContract (t : NDArray) (v : List ℚ) : NDArray :=
  ⟨[t.dim 0, t.dim 1, v.length], fun ix =>
    match ix with
    | [i, j, k] =>
        Finset.sum (Finset.range v.length) fun m =>
          t.ent [i, j, m] * (if m = k then getQ v m else 0)
    | _ => 0⟩

/-- contract("ij, jkl, lm -> ikm", diag(v1), t, diag(v2)) (explicit.py
lines 346-352): the orthogonality-centre tensor of mixed_canonical. -/
def sandwichContract (v1 : List ℚ) (t : NDArray) (v2 : List ℚ) : NDArray :=
  ⟨[v1.length, t.dim 1, v2.length], fun ix =>
    match ix with
    | [i, k, m] =>
        Finset.sum (Finset.range v1.length) fun j =>
          Finset.sum (Finset.range v2.length) fun l =>
            (if i = j then getQ v1 j else 0) * t.ent [j, k, l] *
              (if l = m then getQ v2 l else 0)
    | _ => 0⟩

/-- np.tensordot(a, b, (2, 0)) for two rank-3 tensors (canonical.py
lines 164-168): the two-site tensor of two adjacent sites. -/
def tdot23 (a b : NDArray) : NDArray :=
  ⟨[a.dim 0, a.dim 1, b.dim 1, b.dim 2], fun ix =>
    match ix with
    | [i, j, k, l] =>
        Finset.sum (Finset.range (a.dim 2)) fun m =>
          a.ent [i, j, m] * b.ent [m, k, l]
    | _ => 0⟩

/-- ExplicitMPS.single_site_left_iso without its range guard (the guard
is modelled where the call can actually be out of range): contracts
diag(singular_values[site]) into tensors[site] on the left leg
(explicit.py lines 143-153). -/
def singleSiteLeftIso (e : ExplicitMPS) (i : ℕ) : NDArray :=
  diagLeftContract (getV e.singularValues i) (getT e.tensors i)

/-- ExplicitMPS.single_site_right_iso without its range guard: contracts
diag(singular_values[site + 1]) into tensors[site] on the right leg
(explicit.py lines 155-166). -/
def singleSiteRightIso (e : ExplicitMPS) (i : ℕ) : NDArray :=
  diagRightContract (getT e.tensors i) (getV e.singularValues (i + 1))

/-- The orthogonality-centre tensor of mixed_canonical (explicit.py
lines 346-352): diag(sv[c]) . tensors[c] . diag(sv[c+1]). -/
def orthCentreTensor (e : ExplicitMPS) (n : ℕ) : NDArray :=
  sandwichContract (getV e.singularValues n) (getT e.tensors n)
    (getV e.singularValues (n + 1))

/-- Canonical-form MPS (canonical.py, class CanonicalMPS): per-site
tensors and an optional orthogonality-centre index. -/
structure CanonicalMPS where
  tensors : List NDArray
  orthCentre : Option ℤ
  tolerance : ℚ
  chiMax : ℕ

/-- len(mps) / mps.num_sites for the canonical form. -/
def CanonicalMPS.numSites (m : CanonicalMPS) : ℕ := m.tensors.length

/-- Python truthiness of the orth_centre attribute: None and 0 are both
falsy, any other integer is truthy. -/
def truthy : Option ℤ → Bool
  | none => false
  | some z => z != 0

/-- CanonicalMPS.__init__ (canonical.py lines 81-110).  As in
explicitInit, the first three guards model the implicit IndexErrors of
the attribute computations (bond_dimensions at line 92, phys_dimensions
at line 93, dtype at line 95); then the truthiness-guarded range check
of orth_centre (line 99) and the rank-3 check (line 105). -/
def bondRankOk (tensors : List NDArray) : Prop :=
  ∀ t ∈ tensors.take (tensors.length - 1), 3 ≤ t.rank

instance (tensors : List NDArray) : Decidable (bondRankOk tensors) := by
  unfold bondRankOk; infer_instance

/-- Every tensor has rank at least 2 (so that shape[1] exists). -/
def physRankOk (tensors : List NDArray) : Prop := ∀ t ∈ tensors, 2 ≤ t.rank

instance (tensors : List NDArray) : Decidable (physRankOk tensors) := by
  unfold physRankOk; infer_instance

/-- Every tensor has exactly 3 legs (the explicit rank check). -/
def allRank3 (tensors : List NDArray) : Prop := ∀ t ∈ tensors, t.rank = 3

instance (tensors : List NDArray) : Decidable (allRank3 tensors) := by
  unfold allRank3; infer_instance

/-- The truthiness-guarded range check of canonical.py line 99:
orth_centre is truthy and not in range(num_sites). -/
def ocRangeBad (tensors : List NDArray) (orthCentre : Option ℤ) : Prop :=
  truthy orthCentre = true ∧
    ¬ (0 ≤ orthCentre.getD 0 ∧ orthCentre.getD 0 < (tensors.length : ℤ))

instance (tensors : List NDArray) (orthCentre : Option ℤ) :
    Decidable (ocRangeBad tensors orthCentre) := by
  unfold ocRangeBad; infer_instance

/-- CanonicalMPS.__init__ (canonical.py lines 81-110), continued.  As in
explicitInit, the first three guards model the implicit IndexErrors of
the attribute computations (bond_dimensions at line 92, phys_dimensions
at line 93, dtype at line 95); then the truthiness-guarded range check
of orth_centre (line 99) and the rank-3 check (line 105). -/
def canonicalInit (tensors : List NDArray) (orthCentre : Option ℤ)
    (tolerance : ℚ) (chiMax : ℕ) : Except String CanonicalMPS :=
  if ¬ bondRankOk tensors then
    .error "IndexError: tuple index out of range (shape[2])"
  else if ¬ physRankOk tensors then
    .error "IndexError: tuple index out of range (shape[1])"
  else if tensors.length = 0 then
    .error "IndexError: list index out of range (tensors[0])"
  else if ocRangeBad tensors orthCentre then
    .error "ValueError: the orthogonality centre index must reside in range"
  else if ¬ allRank3 tensors then
    .error "ValueError: a valid MPS tensor must have 3 legs"
  else
    .ok ⟨tensors, orthCentre, tolerance, chiMax⟩

/-- The tensor list built by ExplicitMPS.mixed_canonical (explicit.py
lines 341-356): left isometries for sites below the centre, the
sandwiched centre tensor, right isometries for the sites above it. -/
def mixedTensors (e : ExplicitMPS) (n : ℕ) : List NDArray :=
  ((List.range n).map fun i => singleSiteLeftIso e i) ++
    [orthCentreTensor e n] ++
    ((List.range' (n + 1) (e.numSites - (n + 1))).map fun i => singleSiteRightIso e i)

/-- ExplicitMPS.mixed_canonical (explicit.py lines 324-363): range-check
the requested centre, assemble the mixed-canonical tensor list and hand
it to the CanonicalMPS constructor with orth_centre set to the centre. -/
def mixedCanonical (e : ExplicitMPS) (c : ℤ) : Except String CanonicalMPS :=
  if 0 ≤ c ∧ c < (e.numSites : ℤ) then
    canonicalInit (mixedTensors e c.toNat) (some c) e.tolerance e.chiMax
  else
    .error "ValueError: orthogonality centre index out of range"

/-- The CanonicalMPS value mixed_canonical returns on success. -/
def mixedVal (e : ExplicitMPS) (c : ℤ) : CanonicalMPS :=
  ⟨mixedTensors e c.toNat, some c, e.tolerance, e.chiMax⟩

theorem mixedTensors_rank3 (e : ExplicitMPS) (n : ℕ) :
    ∀ t ∈ mixedTensors e n, t.rank = 3 := by
  intro t ht
  unfold mixedTensors at ht
  rcases List.mem_append.mp ht with h | h
  · rcases List.mem_append.mp h with h | h
    · obtain ⟨i, _, rfl⟩ := List.mem_map.mp h
      rfl
    · rw [List.mem_singleton] at h
      subst h
      rfl
  · obtain ⟨i, _, rfl⟩ := List.mem_map.mp h
    rfl

theorem mixedTensors_length (e : ExplicitMPS) (n : ℕ) (h : n < e.numSites) :
    (mixedTensors e n).length = e.numSites := by
  unfold mixedTensors
  simp only [List.length_append, List.length_map, List.length_range,
    List.length_range', List.length_singleton]
  omega

/-- Well-formedness of a canonical MPS: exactly the conditions under
which canonicalInit succeeds. -/
def CanonicalWF (m : CanonicalMPS) : Prop :=
  m.tensors.length ≠ 0 ∧ allRank3 m.tensors ∧ ¬ ocRangeBad m.tensors m.orthCentre

instance (m : CanonicalMPS) : Decidable (CanonicalWF m) := by
  unfold CanonicalWF; infer_instance

theorem canonicalInit_ok_of_wf (m : CanonicalMPS) (h : CanonicalWF m) :
    canonicalInit m.tensors m.orthCentre m.tolerance m.chiMax = .ok m := by
  obtain ⟨h1, h3, h4⟩ := h
  have g1 : bondRankOk m.tensors := by
    intro t ht
    exact le_of_eq (h3 t (List.mem_of_mem_take ht)).symm
  have g2 : physRankOk m.tensors := by
    intro t ht
    rw [h3 t ht]
    norm_num
  unfold canonicalInit
  rw [if_neg (not_not_intro g1), if_neg (not_not_intro g2), if_neg h1, if_neg h4,
    if_neg (not_not_intro h3)]

theorem mixedCanonical_wf (e : ExplicitMPS) (c : ℤ) (h0 : 0 ≤ c)
    (hN : c < (e.numSites : ℤ)) : CanonicalWF (mixedVal e c) := by
  have hc : (c.toNat : ℤ) = c := Int.toNat_of_nonneg h0
  have hnN : c.toNat < e.numSites := by omega
  refine ⟨?_, ?_, ?_⟩
  · have := mixedTensors_length e c.toNat hnN
    simp only [mixedVal] at *
    omega
  · exact mixedTensors_rank3 e c.toNat
  · rintro ⟨-, hrange⟩
    apply hrange
    refine ⟨h0, ?_⟩
    simp only [mixedVal, Option.getD_some]
    rw [mixedTensors_length e c.toNat hnN]
    exact hN

/-- C1: for every integer orth_centre in [0, N-1], mixed_canonical
returns a CanonicalMPS whose tensor at site i below the centre is the
single-site left isometry diag(sv[i]) . tensors[i], whose tensor at site
i above the centre is the single-site right isometry
tensors[i] . diag(sv[i+1]), and whose tensor at the centre site is
diag(sv[c]) . tensors[c] . diag(sv[c+1]); for every orth_centre outside
[0, N-1] the call fails with an out-of-range error. -/
theorem mixedCanonical_spec (e : ExplicitMPS) (c : ℤ) :
    (0 ≤ c → c < (e.numSites : ℤ) →
      mixedCanonical e c = .ok (mixedVal e c) ∧
      (mixedVal e c).orthCentre = some c ∧
      (mixedVal e c).tensors.length = e.numSites ∧
      (∀ i : ℕ, i < c.toNat → getT (mixedVal e c).tensors i = singleSiteLeftIso e i) ∧
      getT (mixedVal e c).tensors c.toNat = orthCentreTensor e c.toNat ∧
      (∀ i : ℕ, c.toNat < i → i < e.numSites →
        getT (mixedVal e c).tensors i = singleSiteRightIso e i)) ∧
    (¬ (0 ≤ c ∧ c < (e.numSites : ℤ)) → (mixedCanonical e c).isOk = false) := by
  constructor
  · intro h0 hN
    have hc : (c.toNat : ℤ) = c := Int.toNat_of_nonneg h0
    have hnN : c.toNat < e.numSites := by omega
    refine ⟨?_, rfl, mixedTensors_length e c.toNat hnN, ?_, ?_, ?_⟩
    · unfold mixedCanonical
      rw [if_pos ⟨h0, hN⟩]
      exact canonicalInit_ok_of_wf (mixedVal e c) (mixedCanonical_wf e c h0 hN)
    · intro i hi
      show getT (mixedTensors e c.toNat) i = _
      unfold mixedTensors getT
      have hiA : i < (((List.range c.toNat).map fun j => singleSiteLeftIso e j) ++
          [orthCentreTensor e c.toNat]).length := by
        simp only [List.length_append, List.length_map, List.length_range,
          List.length_singleton]
        omega
      have hiA2 : i < ((List.range c.toNat).map fun j => singleSiteLeftIso e j).length := by
        simp only [List.length_map, List.length_range]
        omega
      rw [List.getD_eq_getElem?_getD, List.getElem?_append_left hiA, List.getElem?_append_left hiA2,
        List.getElem?_map, List.getElem?_range hi]
      rfl
    · show getT (mixedTensors e c.toNat) c.toNat = _
      unfold mixedTensors getT
      have hlenA : ((List.range c.toNat).map fun j => singleSiteLeftIso e j).length =
          c.toNat := by
        simp only [List.length_map, List.length_range]
      have hiA : c.toNat < (((List.range c.toNat).map fun j => singleSiteLeftIso e j) ++
          [orthCentreTensor e c.toNat]).length := by
        simp only [List.length_append, List.length_map, List.length_range,
          List.length_singleton]
        omega
      rw [List.getD_eq_getElem?_getD, List.getElem?_append_left hiA,
        List.getElem?_append_right (le_of_eq hlenA), hlenA]
      simp
    · intro i hgt hlt
      show getT (mixedTensors e c.toNat) i = _
      unfold mixedTensors getT
      have hlenA : (((List.range c.toNat).map fun j => singleSiteLeftIso e j) ++
          [orthCentreTensor e c.toNat]).length = c.toNat + 1 := by
        simp only [List.length_append, List.length_map, List.length_range,
          List.length_singleton]
      have hge : (((List.range c.toNat).map fun j => singleSiteLeftIso e j) ++
          [orthCentreTensor e c.toNat]).length ≤ i := by
        omega
      have hmem : i - (c.toNat + 1) < e.numSites - (c.toNat + 1) := by omega
      rw [List.getD_eq_getElem?_getD, List.getElem?_append_right hge, hlenA,
        List.getElem?_map, List.getElem?_range' _ _ hmem]
      have harith : c.toNat + 1 + 1 * (i - (c.toNat + 1)) = i := by omega
      rw [harith]
      rfl
  · intro hbad
    unfold mixedCanonical
    rw [if_neg hbad]
    rfl

/-- C1 witness: the theorem applied to a concrete two-site MPS, with an
in-range centre and an out-of-range one. -/
theorem mixedCanonical_spec_witness :
    mixedCanonical expl2 1 = .ok (mixedVal expl2 1) ∧
    (mixedCanonical expl2 2).isOk = false := by
  constructor
  · exact ((mixedCanonical_spec expl2 1).1 (by norm_num)
      (by norm_num [expl2, ExplicitMPS.numSites])).1
  · refine (mixedCanonical_spec expl2 2).2 ?_
    rintro ⟨-, h2⟩
    norm_num [expl2, ExplicitMPS.numSites] at h2

theorem allRank3_reverse_transpose (l : List NDArray) (h : allRank3 l) :
    allRank3 (l.reverse.map transposeND) := by
  intro t ht
  simp only [List.mem_map, List.mem_reverse] at ht
  obtain ⟨s, hs, rfl⟩ := ht
  have h3 := h s hs
  simp only [transposeND, NDArray.rank, List.length_reverse] at h3 ⊢
  exact h3

/-- CanonicalMPS.reverse (canonical.py lines 122-132): reversed site
order with every tensor fully transposed; when the orth_centre attribute
is truthy (a nonzero integer), the new centre is (num_sites - 1) minus
the old one, otherwise None is stored; the result goes through the
validating constructor. -/
def canonicalReverse (m : CanonicalMPS) : Except String CanonicalMPS :=
  if truthy m.orthCentre = true then
    canonicalInit (m.tensors.reverse.map transposeND)
      (some (((m.numSites : ℤ) - 1) - m.orthCentre.getD 0)) m.tolerance m.chiMax
  else
    canonicalInit (m.tensors.reverse.map transposeND) none m.tolerance m.chiMax

/-- The CanonicalMPS value reverse() returns when construction succeeds. -/
def canonicalReverseVal (m : CanonicalMPS) : CanonicalMPS :=
  ⟨m.tensors.reverse.map transposeND,
    if truthy m.orthCentre = true then
      some (((m.numSites : ℤ) - 1) - m.orthCentre.getD 0)
    else none,
    m.tolerance, m.chiMax⟩

theorem canonicalReverse_eq_init (m : CanonicalMPS) :
    canonicalReverse m = canonicalInit (canonicalReverseVal m).tensors
      (canonicalReverseVal m).orthCentre m.tolerance m.chiMax := by
  unfold canonicalReverse canonicalReverseVal
  by_cases htr : truthy m.orthCentre = true
  · rw [if_pos htr, if_pos htr]
  · rw [if_neg htr, if_neg htr]

/-- C10: reverse() maps a nonzero orthogonality centre c to
num_sites - 1 - c, but a centre equal to 0 (like an absent centre) is
mapped to None, because the source tests the attribute with Python
truthiness; the centre label at site 0 is therefore lost by reversal. -/
theorem canonicalReverse_orthCentre_spec (m : CanonicalMPS)
    (hr : allRank3 m.tensors) (hne : m.tensors.length ≠ 0) :
    (∀ c : ℤ, m.orthCentre = some c → c ≠ 0 → 0 ≤ c → c < (m.numSites : ℤ) →
      canonicalReverse m = .ok (canonicalReverseVal m) ∧
      (canonicalReverseVal m).orthCentre = some (((m.numSites : ℤ) - 1) - c)) ∧
    (m.orthCentre = some 0 →
      canonicalReverse m = .ok (canonicalReverseVal m) ∧
      (canonicalReverseVal m).orthCentre = none) ∧
    (m.orthCentre = none →
      canonicalReverse m = .ok (canonicalReverseVal m) ∧
      (canonicalReverseVal m).orthCentre = none) := by
  have hlen : (m.tensors.reverse.map transposeND).length = m.tensors.length := by
    simp
  refine ⟨?_, ?_, ?_⟩
  · intro c hceq hc0 hcpos hclt
    have htr : truthy m.orthCentre = true := by
      rw [hceq]
      simpa [truthy] using hc0
    have hval : (canonicalReverseVal m).orthCentre =
        some (((m.numSites : ℤ) - 1) - c) := by
      unfold canonicalReverseVal
      simp only [hceq, Option.getD_some]
      rw [if_pos (by simpa [hceq] using htr)]
    refine ⟨?_, hval⟩
    rw [canonicalReverse_eq_init]
    have hwf : CanonicalWF (canonicalReverseVal m) := by
      refine ⟨by simpa [canonicalReverseVal] using hne,
        allRank3_reverse_transpose m.tensors hr, ?_⟩
      rintro ⟨-, hbad⟩
      apply hbad
      rw [hval]
      simp only [Option.getD_some]
      constructor
      · omega
      · show _ < ((canonicalReverseVal m).tensors.length : ℤ)
        have : (canonicalReverseVal m).tensors.length = m.tensors.length := by
          simp [canonicalReverseVal]
        rw [this]
        have hNeq : (m.numSites : ℤ) = (m.tensors.length : ℤ) := rfl
        omega
    exact canonicalInit_ok_of_wf (canonicalReverseVal m) hwf
  · intro hceq
    have htr : ¬ truthy m.orthCentre = true := by
      rw [hceq]
      simp [truthy]
    have hval : (canonicalReverseVal m).orthCentre = none := by
      unfold canonicalReverseVal
      simp only [if_neg htr]
    refine ⟨?_, hval⟩
    rw [canonicalReverse_eq_init]
    have hwf : CanonicalWF (canonicalReverseVal m) := by
      refine ⟨by simpa [canonicalReverseVal] using hne,
        allRank3_reverse_transpose m.tensors hr, ?_⟩
      rintro ⟨htr2, -⟩
      rw [hval] at htr2
      simp [truthy] at htr2
    exact canonicalInit_ok_of_wf (canonicalReverseVal m) hwf
  · intro hceq
    have htr : ¬ truthy m.orthCentre = true := by
      rw [hceq]
      simp [truthy]
    have hval : (canonicalReverseVal m).orthCentre = none := by
      unfold canonicalReverseVal
      simp only [if_neg htr]
    refine ⟨?_, hval⟩
    rw [canonicalReverse_eq_init]
    have hwf : CanonicalWF (canonicalReverseVal m) := by
      refine ⟨by simpa [canonicalReverseVal] using hne,
        allRank3_reverse_transpose m.tensors hr, ?_⟩
      rintro ⟨htr2, -⟩
      rw [hval] at htr2
      simp [truthy] at htr2
    exact canonicalInit_ok_of_wf (canonicalReverseVal m) hwf

/-- Two-site canonical MPS with the centre at site 1. -/
def can2oc1 : CanonicalMPS := ⟨[tensorP, tensorP], some 1, 1 / 1000000000000, 10000⟩

/-- Two-site canonical MPS with the centre at site 0. -/
def can2oc0 : CanonicalMPS := ⟨[tensorP, tensorP], some 0, 1 / 1000000000000, 10000⟩

/-- C10 witness: reversing a two-site MPS with centre 1 gives centre 0,
while reversing one with centre 0 loses the label (None). -/
theorem canonicalReverse_orthCentre_witness :
    canonicalReverse can2oc1 = .ok (canonicalReverseVal can2oc1) ∧
    (canonicalReverseVal can2oc1).orthCentre = some 0 ∧
    (canonicalReverseVal can2oc0).orthCentre = none := by
  have hr1 : allRank3 can2oc1.tensors := by
    intro t ht
    simp only [can2oc1, List.mem_cons, List.not_mem_nil, or_false] at ht
    rcases ht with rfl | rfl <;> rfl
  have h1 := (canonicalReverse_orthCentre_spec can2oc1 hr1 (by norm_num [can2oc1])).1 1
    rfl (by norm_num) (by norm_num) (by norm_num [can2oc1, CanonicalMPS.numSites])
  have hr0 : allRank3 can2oc0.tensors := by
    intro t ht
    simp only [can2oc0, List.mem_cons, List.not_mem_nil, or_false] at ht
    rcases ht with rfl | rfl <;> rfl
  have h0 := (canonicalReverse_orthCentre_spec can2oc0 hr0 (by norm_num [can2oc0])).2.1 rfl
  refine ⟨h1.1, ?_, h0.2⟩
  rw [h1.2]
  norm_num [can2oc1, CanonicalMPS.numSites]

/-- Modelled from the spec: the left-contraction of a site tensor with
its conjugate over the (vL, physical) legs, as a matrix on the (vR, vR')
indices (find_orth_centre of mpopt.mps.utils, which is not among the
repository's files; spec section 4.3).  Conjugation is the identity on
the real-valued model. -/
def leftGram (t : NDArray) (k k' : ℕ) : ℚ :=
  Finset.sum (Finset.range (t.dim 0)) fun a =>
    Finset.sum (Finset.range (t.dim 1)) fun j => t.ent [a, j, k] * t.ent [a, j, k']

/-- Modelled from the spec: the right-contraction over (physical, vR),
as a matrix on the (vL, vL') indices. -/
def rightGram (t : NDArray) (l l' : ℕ) : ℚ :=
  Finset.sum (Finset.range (t.dim 1)) fun j =>
    Finset.sum (Finset.range (t.dim 2)) fun r => t.ent [l, j, r] * t.ent [l', j, r]

/-- Squared Frobenius norm of (g - identity) on an n-by-n index range. -/
def frobSqDiffId (g : ℕ → ℕ → ℚ) (n : ℕ) : ℚ :=
  Finset.sum (Finset.range n) fun k =>
    Finset.sum (Finset.range n) fun k' => (g k k' - if k = k' then 1 else 0) ^ 2

/-- Modelled from the spec: the per-site left-isometry flag of
find_orth_centre — the Frobenius norm of (left contraction - identity)
is at most the absolute tolerance 1e-12.  The comparison is encoded on
squared norms, which is equivalent for a non-negative bound. -/
def isLeftIsoFlag (t : NDArray) : Bool :=
  decide (frobSqDiffId (leftGram t) (t.dim 2) ≤ (1 / 1000000000000) ^ 2)

/-- Modelled from the spec: the per-site right-isometry flag of
find_orth_centre. -/
def isRightIsoFlag (t : NDArray) : Bool :=
  decide (frobSqDiffId (rightGram t) (t.dim 0) ≤ (1 / 1000000000000) ^ 2)

/-- The fallback centre discovery of CanonicalMPS.move_orth_centre
(canonical.py lines 278-297), run when orth_centre is None: three
sequential pattern tests on the per-site isometry flags, possibly
assigning 0, num_sites - 1, then 0 to the receiver's orth_centre. -/
def discoverOrthCentre (m : CanonicalMPS) : Option ℤ :=
  let fl := m.tensors.map isLeftIsoFlag
  let fr := m.tensors.map isRightIsoFlag
  let n := m.numSites
  let oc1 : Option ℤ :=
    if (fl = true :: List.replicate (n - 1) false ∨ fl = List.replicate n false) ∧
        fr = fl.map (fun b => !b) then some 0 else none
  let oc2 : Option ℤ :=
    if (fl = List.replicate (n - 1) true ++ [false] ∨ fl = List.replicate n true) ∧
        fr = fl.map (fun b => !b) then some ((n : ℤ) - 1) else oc1
  if fl = List.replicate n true ∧ fr = List.replicate n true then some 0 else oc2

/-- The value CanonicalMPS.move_orth_centre returns: either the moved
MPS alone, or the moved MPS together with the collected singular-value
vectors, depending on return_singular_values and on the path taken. -/
inductive MoveResult where
  | single (m : CanonicalMPS)
  | pair (m : CanonicalMPS) (svs : List (List ℚ))

instance : Inhabited CanonicalMPS := ⟨⟨[], none, 0, 0⟩⟩

/-- CanonicalMPS.two_site_tensor_next (canonical.py lines 155-168):
range-check the site, then contract tensors[site] with tensors[site+1]
over the shared bond. -/
def twoSiteTensorNextE (m : CanonicalMPS) (i : ℤ) : Except String NDArray :=
  if 0 ≤ i ∧ i < (m.numSites : ℤ) - 1 then
    .ok (tdot23 (getT m.tensors i.toNat) (getT m.tensors (i.toNat + 1)))
  else
    .error "ValueError: sites given out of range"

/-- CanonicalMPS.copy (canonical.py lines 116-120): deepcopy of the
fields through the validating constructor (deepcopy is the identity on
values). -/
def canonicalCopy (m : CanonicalMPS) : Except String CanonicalMPS :=
  canonicalInit m.tensors m.orthCentre m.tolerance m.chiMax

/-- One iteration of the sweep loop of move_orth_centre (canonical.py
lines 309-320): build the two-site tensor at bond i, split it with the
given splitter (split_two_site_tensor with renormalise=True; the
splitter stands for the SVD routine of mpopt.utils.utils, which is not
among the repository's files), write the left factor back at site i and
diag(singular values) . right factor at site i+1, and record the bond's
singular values. -/
def sweepStep (split : NDArray → NDArray × List ℚ × NDArray)
    (acc : CanonicalMPS × List (List ℚ)) (i : ℤ) :
    Except String (CanonicalMPS × List (List ℚ)) := do
  let theta ← twoSiteTensorNextE acc.1 i
  let (uL, svBond, vR) := split theta
  let newTensors := (acc.1.tensors.set i.toNat uL).set (i.toNat + 1)
    (diagLeftContract svBond vR)
  pure ({ acc.1 with tensors := newTensors }, acc.2 ++ [svBond])

/-- The sweep loop of move_orth_centre over a list of bond indices. -/
def sweepE (split : NDArray → NDArray × List ℚ × NDArray) (mps0 : CanonicalMPS)
    (idxs : List ℤ) : Except String (CanonicalMPS × List (List ℚ)) :=
  idxs.foldlM (sweepStep split) (mps0, [])

/-- Python range(a, b) over integers. -/
def intRange (a b : ℤ) : List ℤ := (List.range (b - a).toNat).map fun k => a + k

/-- The receiver as it stands after the discovery fallback of
move_orth_centre (canonical.py lines 278-297): when orth_centre is None
the method writes the discovered centre into self.orth_centre before
moving; otherwise the receiver is untouched. -/
def moveSelf1 (self : CanonicalMPS) : CanonicalMPS :=
  match self.orthCentre with
  | none => { self with orthCentre := discoverOrthCentre self }
  | some _ => self

/-- The value move_orth_centre computes once the discovery fallback has
run (canonical.py lines 299-329): compare the (possibly just
discovered) centre with final_pos; sweep left-to-right on a copy, or on
the reversed MPS and reverse back, or return self unchanged; return the
MPS alone or the MPS with the collected singular values according to
return_singular_values — except on the no-move path, which always
returns the MPS alone. -/
def moveResultE (split : NDArray → NDArray × List ℚ × NDArray)
    (self1 : CanonicalMPS) (finalPos : ℤ) (returnSV : Bool) :
    Except String MoveResult :=
  match self1.orthCentre with
  | none => .error "TypeError: not supported between instances of NoneType and int"
  | some oc =>
    if oc < finalPos then do
      let mps ← canonicalCopy self1
      let moved ← sweepE split mps (intRange oc finalPos)
      pure (if returnSV then MoveResult.pair moved.1 moved.2
        else MoveResult.single moved.1)
    else if finalPos < oc then do
      let mps ← canonicalReverse self1
      match mps.orthCentre with
      | none => throw "TypeError: not supported between instances of NoneType and int"
      | some begin2 =>
        let final2 := ((self1.numSites : ℤ) - 1) - finalPos
        do
          let moved ← sweepE split mps (intRange begin2 final2)
          let mps3 ← canonicalReverse moved.1
          pure (if returnSV then MoveResult.pair mps3 moved.2.reverse
            else MoveResult.single mps3)
    else
      .ok (.single self1)

/-- CanonicalMPS.move_orth_centre (canonical.py lines 250-329) as a
state transformer: the first component is the returned value (or the
exception), the second is the receiver as it stands after the call —
the only assignments to self in the source are the discovery fallback's
writes to self.orth_centre, captured by moveSelf1; the range guard of
line 270 runs before the fallback, so on that error path the receiver
is still untouched. -/
def moveOrthCentreST (split : NDArray → NDArray × List ℚ × NDArray)
    (self : CanonicalMPS) (finalPos : ℤ) (returnSV : Bool) :
    Except String MoveResult × CanonicalMPS :=
  if ¬ (0 ≤ finalPos ∧ finalPos < (self.numSites : ℤ)) then
    (.error "ValueError: the final position of the orthogonality centre is out of range",
      self)
  else
    (moveResultE split (moveSelf1 self) finalPos returnSV, moveSelf1 self)

/-- C9: when the orthogonality centre already equals the requested final
position, move_orth_centre returns the MPS instance alone — even with
return_singular_values=True — because the early-return branch of
canonical.py line 307 runs before the return_singular_values branch of
line 326; the shape of the result therefore depends on whether the
centre actually moved. -/
theorem moveOrthCentre_same_pos (split : NDArray → NDArray × List ℚ × NDArray)
    (m : CanonicalMPS) (p : ℤ) (hoc : m.orthCentre = some p) (h0 : 0 ≤ p)
    (hN : p < (m.numSites : ℤ)) :
    moveOrthCentreST split m p true = (.ok (.single m), m) := by
  have hself1 : moveSelf1 m = m := by
    unfold moveSelf1
    rw [hoc]
  unfold moveOrthCentreST
  rw [if_neg (not_not_intro ⟨h0, hN⟩), hself1]
  unfold moveResultE
  rw [hoc]
  simp only [lt_irrefl, if_false]

/-- CanonicalMPS.reverse as a state transformer: the method contains no
assignment to self, so the post-call receiver is the receiver itself. -/
def canonicalReverseST (m : CanonicalMPS) : Except String CanonicalMPS × CanonicalMPS :=
  (canonicalReverse m, m)

/-- np.conjugate of a tensor; the identity on the real-valued model. -/
def conjND (t : NDArray) : NDArray := ⟨t.shape, fun ix => t.ent ix⟩

/-- CanonicalMPS.conjugate (canonical.py lines 134-139): conjugated
tensors through the validating constructor, same orth_centre. -/
def canonicalConjugate (m : CanonicalMPS) : Except String CanonicalMPS :=
  canonicalInit (m.tensors.map conjND) m.orthCentre m.tolerance m.chiMax

/-- CanonicalMPS.conjugate as a state transformer: no assignment to
self. -/
def canonicalConjugateST (m : CanonicalMPS) :
    Except String CanonicalMPS × CanonicalMPS :=
  (canonicalConjugate m, m)

/-- A vector containing an exact zero, making diag(v) singular. -/
def hasZero (v : List ℚ) : Prop := ∃ x ∈ v, x = 0

instance (v : List ℚ) : Decidable (hasZero v) := by
  unfold hasZero; infer_instance

/-- np.tensordot(t, np.linalg.inv(np.diag(v)), (2, 0)) (canonical.py
lines 393-398): np.linalg.inv raises LinAlgError on an exactly singular
matrix (a zero on the diagonal); otherwise the inverse of the diagonal
matrix is the diagonal of the elementwise inverses, contracted into the
third leg. -/
def invDiagRightContractE (t : NDArray) (v : List ℚ) : Except String NDArray :=
  if hasZero v then .error "LinAlgError: Singular matrix"
  else .ok (diagRightContract t (v.map fun x => x⁻¹))

/-- CanonicalMPS.move_orth_centre_to_border (canonical.py lines
331-366).  The method never assigns to self: with orth_centre None it
returns (self.copy(), border) on the three flag-pattern tests of lines
342-356 (the third test uses all(...), unlike the list-equality test of
move_orth_centre) and otherwise falls through to the dedented return of
line 366 with the local mps unbound — an UnboundLocalError; with
orth_centre set it moves to the nearer border, comparing against
int(self.num_bonds / 2), i.e. truncating division (Int.tdiv). -/
def moveOrthCentreToBorder (split : NDArray → NDArray × List ℚ × NDArray)
    (m : CanonicalMPS) : Except String (CanonicalMPS × String) :=
  match m.orthCentre with
  | none =>
      let fl := m.tensors.map isLeftIsoFlag
      let fr := m.tensors.map isRightIsoFlag
      let n := m.numSites
      if (fl = true :: List.replicate (n - 1) false ∨ fl = List.replicate n false) ∧
          fr = fl.map (fun b => !b) then do
        let c ← canonicalCopy m
        pure (c, "first")
      else if (fl = List.replicate (n - 1) true ++ [false] ∨
          fl = List.replicate n true) ∧ fr = fl.map (fun b => !b) then do
        let c ← canonicalCopy m
        pure (c, "last")
      else if fl.all (fun b => b) = true ∧ fr.all (fun b => b) = true then do
        let c ← canonicalCopy m
        pure (c, "first")
      else
        .error "UnboundLocalError: local variable mps referenced before assignment"
  | some oc =>
      if oc ≤ Int.tdiv ((m.numSites : ℤ) - 1) 2 then do
        let r ← (moveOrthCentreST split m 0 false).1
        match r with
        | .single mm => pure (mm, "first")
        | .pair mm _ => pure (mm, "first")
      else do
        let r ← (moveOrthCentreST split m ((m.numSites : ℤ) - 1) false).1
        match r with
        | .single mm => pure (mm, "last")
        | .pair mm _ => pure (mm, "last")

/-- The value CanonicalMPS.explicit computes after the receiver's
orth_centre has been reassigned (canonical.py lines 379-401): the
second move with return_singular_values=True — whose result the source
unpacks as a pair, a TypeError when the no-move branch returned the MPS
alone — then the ghost [1.0] vectors, the per-site contraction with
the inverted singular-value diagonals, and the ExplicitMPS constructor
with its default tolerance and chi_max. -/
def explicitResultE (split : NDArray → NDArray × List ℚ × NDArray)
    (self2 : CanonicalMPS) (border : String) : Except String ExplicitMPS := do
  let moveRes ← (moveOrthCentreST split self2
    (if border = "first" then (self2.numSites : ℤ) - 1 else 0) true).1
  match moveRes with
  | .single _ => throw "TypeError: cannot unpack non-iterable CanonicalMPS object"
  | .pair mpsC svs => do
      let svs2 := [[(1 : ℚ)]] ++ svs ++ [[(1 : ℚ)]]
      let explicitTensors ← (List.range self2.numSites).mapM fun i =>
        invDiagRightContractE (getT mpsC.tensors i) (getV svs2 (i + 1))
      explicitInit explicitTensors svs2 (1 / 1000000000000) 10000

/-- CanonicalMPS.explicit (canonical.py lines 368-401) as a state
transformer.  The method first calls move_orth_centre_to_border (which
never assigns to self, so a raise there leaves the receiver untouched),
then unconditionally assigns self.orth_centre — 0 at line 378 when the
border is "first", num_sites - 1 at line 383 otherwise — before the
second move runs; the receiver therefore ends with the border index in
orth_centre whatever happens afterwards, and its tensors are never
touched. -/
def explicitST (split : NDArray → NDArray × List ℚ × NDArray)
    (self : CanonicalMPS) : Except String ExplicitMPS × CanonicalMPS :=
  match moveOrthCentreToBorder split self with
  | .error e => (.error e, self)
  | .ok (_, border) =>
      let newCentre : Option ℤ :=
        if border = "first" then some 0 else some ((self.numSites : ℤ) - 1)
      let self2 : CanonicalMPS := { self with orthCentre := newCentre }
      (explicitResultE split self2 border, self2)

/-- C2 (amended): reverse and conjugate leave every field of the
receiver unchanged; move_orth_centre always leaves the receiver's
tensors unchanged, and leaves the whole receiver unchanged whenever its
orth_centre attribute is set — but when orth_centre is None it may
write the discovered centre into the receiver (canonical.py lines
287, 293, 297); explicit() also always leaves the receiver's tensors
unchanged, but whenever move_orth_centre_to_border returns it writes
the border index — 0 for "first", num_sites - 1 for "last" — into the
receiver's orth_centre (canonical.py lines 378, 383), and only when
that call raises does the receiver stay unchanged. -/
theorem canonicalMutation_frame (split : NDArray → NDArray × List ℚ × NDArray)
    (m : CanonicalMPS) (p : ℤ) (rsv : Bool) :
    (moveOrthCentreST split m p rsv).2.tensors = m.tensors ∧
    (m.orthCentre ≠ none → (moveOrthCentreST split m p rsv).2 = m) ∧
    (canonicalReverseST m).2 = m ∧
    (canonicalConjugateST m).2 = m ∧
    (explicitST split m).2.tensors = m.tensors ∧
    (∀ mc b, moveOrthCentreToBorder split m = .ok (mc, b) →
      (explicitST split m).2.orthCentre =
        (if b = "first" then some 0 else some ((m.numSites : ℤ) - 1))) ∧
    (∀ e, moveOrthCentreToBorder split m = .error e → (explicitST split m).2 = m) := by
  have hself1t : (moveSelf1 m).tensors = m.tensors := by
    unfold moveSelf1
    cases m.orthCentre <;> rfl
  refine ⟨?_, ?_, rfl, rfl, ?_, ?_, ?_⟩
  · unfold moveOrthCentreST
    split_ifs with hrange
    · exact hself1t
    · rfl
  · intro hne
    have hself1 : moveSelf1 m = m := by
      unfold moveSelf1
      cases hoc : m.orthCentre with
      | none => exact absurd hoc hne
      | some oc => rfl
    unfold moveOrthCentreST
    split_ifs with hrange
    · rw [hself1]
    · rfl
  · unfold explicitST
    cases hb : moveOrthCentreToBorder split m with
    | error e => rfl
    | ok pr =>
        obtain ⟨mc, b⟩ := pr
        rfl
  · intro mc b hb
    unfold explicitST
    rw [hb]
  · intro e hb
    unfold explicitST
    rw [hb]


/-- Two-site product-state canonical MPS with orth_centre = None. -/
def can2prod : CanonicalMPS := ⟨[tensorP, tensorP], none, 1 / 1000000000000, 10000⟩

/-- A placeholder splitter; the paths exercised with it never split. -/
def split0 : NDArray → NDArray × List ℚ × NDArray := fun t => (t, [], t)

/-- C2 counterexample: on a receiver whose orth_centre is None,
move_orth_centre writes the discovered centre (site 0, by the
product-state convention branch of canonical.py line 297) into the
receiver, and explicit() writes the chosen border (site 0, via the
all-isometric convention branch of move_orth_centre_to_border and the
assignment of canonical.py line 378) into the receiver; in both calls
the receiver's orth_centre field changes from None to 0, so neither
transformation leaves every field of the receiver unchanged. -/
theorem moveOrthCentre_mutates_receiver :
    can2prod.orthCentre = none ∧
    (moveOrthCentreST split0 can2prod 0 false).2.orthCentre = some 0 ∧
    (explicitST split0 can2prod).2.orthCentre = some 0 := by
  exact ⟨rfl, by with_unfolding_all rfl, by with_unfolding_all rfl⟩

/-- C2 witness: the frame theorem applied to a concrete receiver whose
centre is set (for the move conjuncts), and to the border-write
conjunct of explicit() at the concrete border returned for it. -/
theorem canonicalMutation_frame_witness :
    (moveOrthCentreST split0 can2oc1 0 false).2 = can2oc1 ∧
    (canonicalReverseST can2oc1).2 = can2oc1 ∧
    (explicitST split0 can2oc1).2.orthCentre = some 1 := by
  refine ⟨(canonicalMutation_frame split0 can2oc1 0 false).2.1 ?_,
    (canonicalMutation_frame split0 can2oc1 0 false).2.2.1, ?_⟩
  · simp [can2oc1]
  · have h := (canonicalMutation_frame split0 can2oc1 0 false).2.2.2.2.2.1 can2oc1
      "last" (by with_unfolding_all rfl)
    rw [h]
    with_unfolding_all rfl

/-- C9 witness: the no-move theorem applied to a concrete MPS whose
centre is already at the requested position. -/
theorem moveOrthCentre_same_pos_witness :
    moveOrthCentreST split0 can2oc1 1 true = (.ok (.single can2oc1), can2oc1) :=
  moveOrthCentre_same_pos split0 can2oc1 1 rfl (by norm_num)
    (by norm_num [can2oc1, CanonicalMPS.numSites])

/-- Shape-(1,2,2) centre tensor: the matrix diag(3/5, 4/5) with a ghost
left leg.  Together with tensorIdR it encodes a normalised two-site
state with Schmidt values 4/5 and 3/5. -/
def tensorA : NDArray :=
  ⟨[1, 2, 2], fun ix =>
    if ix = [0, 0, 0] then 3 / 5 else if ix = [0, 1, 1] then 4 / 5 else 0⟩

/-- Shape-(2,2,1) right isometry: the identity with a ghost right leg. -/
def tensorIdR : NDArray :=
  ⟨[2, 2, 1], fun ix =>
    if ix = [0, 0, 0] then 1 else if ix = [1, 1, 0] then 1 else 0⟩

/-- Two-site canonical MPS with the orthogonality centre at site 0. -/
def can2AB : CanonicalMPS := ⟨[tensorA, tensorIdR], some 0, 1 / 1000000000000, 10000⟩

/-- The two-site tensor of can2AB at bond 0. -/
def thetaAB : NDArray := tdot23 tensorA tensorIdR

/-- Left SVD factor of thetaAB: the permutation that reorders the
Schmidt values descending. -/
def tensorU : NDArray :=
  ⟨[1, 2, 2], fun ix =>
    if ix = [0, 0, 1] then 1 else if ix = [0, 1, 0] then 1 else 0⟩

/-- The singular values of thetaAB, descending and of unit norm. -/
def svAB : List ℚ := [4 / 5, 3 / 5]

/-- Right SVD factor of thetaAB. -/
def tensorV : NDArray :=
  ⟨[2, 2, 1], fun ix =>
    if ix = [0, 1, 0] then 1 else if ix = [1, 0, 0] then 1 else 0⟩

/-- A splitter that performs the (unique up to gauge) exact SVD of
thetaAB; the sweep it is used in splits only that tensor, and the
theorem records that the output satisfies the SVD contract there. -/
def splitAB : NDArray → NDArray × List ℚ × NDArray := fun _ => (tensorU, svAB, tensorV)

/-- Modelled from the spec: the contract of the missing
split_two_site_tensor (mpopt.utils.utils; spec section 4.1) at one
concrete input, with renormalisation: the left factor times
diag(singular values) times the right factor reconstructs the input,
both factors are isometries on the bond index, and the singular values
are non-negative, descending and of unit Euclidean norm. -/
def isValidSplitOn (theta uL : NDArray) (s : List ℚ) (vR : NDArray) : Prop :=
  (∀ i ∈ Finset.range (theta.dim 0), ∀ j ∈ Finset.range (theta.dim 1),
    ∀ k ∈ Finset.range (theta.dim 2), ∀ l ∈ Finset.range (theta.dim 3),
      (Finset.sum (Finset.range s.length) fun b =>
        uL.ent [i, j, b] * getQ s b * vR.ent [b, k, l]) = theta.ent [i, j, k, l]) ∧
  (∀ b ∈ Finset.range s.length, ∀ b' ∈ Finset.range s.length,
    (Finset.sum (Finset.range (uL.dim 0)) fun i =>
      Finset.sum (Finset.range (uL.dim 1)) fun j =>
        uL.ent [i, j, b] * uL.ent [i, j, b']) = if b = b' then 1 else 0) ∧
  (∀ b ∈ Finset.range s.length, ∀ b' ∈ Finset.range s.length,
    (Finset.sum (Finset.range (vR.dim 1)) fun k =>
      Finset.sum (Finset.range (vR.dim 2)) fun l =>
        vR.ent [b, k, l] * vR.ent [b', k, l]) = if b = b' then 1 else 0) ∧
  (∀ b ∈ Finset.range s.length, 0 ≤ getQ s b) ∧
  (∀ b ∈ Finset.range s.length, ∀ b' ∈ Finset.range s.length, b ≤ b' →
    getQ s b' ≤ getQ s b) ∧
  sumSq s = 1

instance (theta uL : NDArray) (s : List ℚ) (vR : NDArray) :
    Decidable (isValidSplitOn theta uL s vR) := by
  unfold isValidSplitOn; infer_instance

/-- The MPS held inside a move_orth_centre result. -/
def moveResMPS (r : Except String MoveResult × CanonicalMPS) : CanonicalMPS :=
  match r.1 with
  | .ok (.single m) => m
  | .ok (.pair m _) => m
  | .error _ => default

/-- C5, the code's behaviour at the failing input: moving the centre of
can2AB from 0 to 1 with a legitimate SVD split returns an MPS whose
orth_centre attribute still reads 0 (the source never updates it to
final_pos), whose site-0 tensor now differs from the original (entry
(0,0,0) is 0 instead of 3/5); the follow-up move from that MPS back to
position 0 therefore takes the init == final no-op branch and returns
the moved MPS itself, so the roundtrip does not reconstruct the
original tensors. -/
theorem moveOrthCentre_roundtrip_stale :
    isValidSplitOn thetaAB tensorU svAB tensorV ∧
    (moveResMPS (moveOrthCentreST splitAB can2AB 1 false)).orthCentre = some 0 ∧
    (getT (moveResMPS (moveOrthCentreST splitAB can2AB 1 false)).tensors 0).ent
      [0, 0, 0] = 0 ∧
    (getT can2AB.tensors 0).ent [0, 0, 0] = 3 / 5 ∧
    moveOrthCentreST splitAB (moveResMPS (moveOrthCentreST splitAB can2AB 1 false))
        0 false =
      (.ok (.single (moveResMPS (moveOrthCentreST splitAB can2AB 1 false))),
        moveResMPS (moveOrthCentreST splitAB can2AB 1 false)) := by
  refine ⟨of_decide_eq_true (by with_unfolding_all rfl), by with_unfolding_all rfl,
    by with_unfolding_all rfl, by with_unfolding_all rfl, by with_unfolding_all rfl⟩

/-- ExplicitMPS.single_site_right_iso with its range guard (explicit.py
lines 155-166), used by the DMRG environment updates. -/
def singleSiteRightIsoE (e : ExplicitMPS) (i : ℕ) : Except String NDArray :=
  if i < e.numSites then .ok (singleSiteRightIso e i)
  else .error "ValueError: sites given out of range"

/-- contract("ijk, lnjm, omp -> iloknp", iso, mpo_tensor, conj(iso))
(dmrg.py lines 220-222); conjugation is the identity on the real-valued
model. -/
def envTmpR (iso mpoT : NDArray) : NDArray :=
  ⟨[iso.dim 0, mpoT.dim 0, iso.dim 0, iso.dim 2, mpoT.dim 1, iso.dim 2], fun ix =>
    match ix with
    | [i, l, o, k, n, p] =>
        Finset.sum (Finset.range (iso.dim 1)) fun j =>
          Finset.sum (Finset.range (mpoT.dim 3)) fun m =>
            iso.ent [i, j, k] * mpoT.ent [l, n, j, m] * iso.ent [o, m, p]
    | _ => 0⟩

/-- contract("ijk, lmnijk", right_environment, tmp) (dmrg.py line 223):
full contraction of the old environment against the last three axes of
tmp, leaving the first three as the new environment. -/
def envContractR (renv tmp : NDArray) : NDArray :=
  ⟨[tmp.dim 0, tmp.dim 1, tmp.dim 2], fun ix =>
    match ix with
    | [l, m, n] =>
        Finset.sum (Finset.range (renv.dim 0)) fun i =>
          Finset.sum (Finset.range (renv.dim 1)) fun j =>
            Finset.sum (Finset.range (renv.dim 2)) fun k =>
              renv.ent [i, j, k] * tmp.ent [l, m, n, i, j, k]
    | _ => 0⟩

/-- The DMRG optimizer's state after construction (dmrg.py, class DMRG):
the MPS, the MPO, the numeric configuration and the two environment
arrays (initialised with None entries, as in the source). -/
structure DMRGState where
  mps : ExplicitMPS
  mpo : List NDArray
  chiMax : ℕ
  cut : ℚ
  mode : String
  leftEnvironments : List (Option NDArray)
  rightEnvironments : List (Option NDArray)

instance : Inhabited DMRGState := ⟨⟨⟨[], [], 0, 0⟩, [], 0, 0, "", [], []⟩⟩

/-- DMRG.update_right_environment (dmrg.py lines 213-224): read
right_environments[i], build the single-site right isometry at site i,
contract, and write the result into right_environments[i - 1].  Reading
a None environment would be a TypeError in the source. -/
def updateRightEnvStep (mps : ExplicitMPS) (mpo : List NDArray)
    (envs : List (Option NDArray)) (i : ℕ) :
    Except String (List (Option NDArray)) := do
  let renv ← match envs.getD i none with
    | some t => pure t
    | none => throw "TypeError: the right environment at site i is None"
  let iso ← singleSiteRightIsoE mps i
  let tmp := envTmpR iso (getT mpo i)
  pure (envs.set (i - 1) (some (envContractR renv tmp)))

/-- The right-environment initialisation pass of DMRG.__init__ (dmrg.py
lines 137-139), over a given list of site indices. -/
def envLoop (mps : ExplicitMPS) (mpo : List NDArray) :
    List ℕ → List (Option NDArray) → Except String (List (Option NDArray))
  | [], envs => .ok envs
  | i :: rest, envs => do
      let envs2 ← updateRightEnvStep mps mpo envs i
      envLoop mps mpo rest envs2

/-- The list [k, k-1, ..., 1]: reversed(range(1, k + 1)) in Python. -/
def downFrom : ℕ → List ℕ
  | 0 => []
  | k + 1 => (k + 1) :: downFrom k

/-- The left-boundary environment of DMRG.__init__ (dmrg.py lines 130
and 132): np.zeros of shape (chi, D, chi) with the identity written at
operator-virtual index 0.  The source computes this tensor and then
never uses it (see dmrgInit below). -/
def leftBoundaryEnv (chi D : ℕ) : NDArray :=
  ⟨[chi, D, chi], fun ix =>
    match ix with
    | [u, w, d] => if w = 0 ∧ u = d then 1 else 0
    | _ => 0⟩

/-- The right-boundary environment of DMRG.__init__ (dmrg.py lines 131
and 133): np.zeros of shape (chi, D, chi) with the identity written at
operator-virtual index D - 1. -/
def rightBoundaryEnv (chi D : ℕ) : NDArray :=
  ⟨[chi, D, chi], fun ix =>
    match ix with
    | [u, w, d] => if w = D - 1 ∧ u = d then 1 else 0
    | _ => 0⟩

/-- DMRG.__init__ (dmrg.py lines 112-139): the explicit length check,
then the two implicit IndexErrors of the mpo[0] and mps.tensors[0]
accesses of lines 128-129, then the boundary environments and one full
right-to-left contraction pass.  Note line 134 of the source:
self.left_environments[0] = right_environment — it stores the
right-boundary tensor (identity at operator-virtual index
start_bond_dim - 1) into left_environments[0], while the computed
left_environment (leftBoundaryEnv, identity at operator-virtual index
0) is never used. -/
def dmrgInit (mps : ExplicitMPS) (mpo : List NDArray) (chiMax : ℕ) (cut : ℚ)
    (mode : String) : Except String DMRGState :=
  if mps.numSites ≠ mpo.length then
    .error "ValueError: the MPS and the MPO have different lengths"
  else if mpo.length = 0 then
    .error "IndexError: list index out of range (mpo[0])"
  else if mps.tensors.length = 0 then
    .error "IndexError: list index out of range (mps.tensors[0])"
  else do
    let rightEnvs2 ← envLoop mps mpo (downFrom (mps.numSites - 1))
      ((List.replicate mps.numSites (none : Option NDArray)).set (mps.numSites - 1)
        (some (rightBoundaryEnv ((getT mps.tensors 0).dim 0) ((getT mpo 0).dim 0))))
    pure ⟨mps, mpo, chiMax, cut, mode,
      (List.replicate mps.numSites (none : Option NDArray)).set 0
        (some (rightBoundaryEnv ((getT mps.tensors 0).dim 0) ((getT mpo 0).dim 0))),
      rightEnvs2⟩

theorem envLoop_down_ok (mps : ExplicitMPS) (mpo : List NDArray) :
    ∀ (k : ℕ) (envs : List (Option NDArray)), k < mps.numSites →
      envs.length = mps.numSites → (envs.getD k none).isSome = true →
      (envLoop mps mpo (downFrom k) envs).isOk = true := by
  intro k
  induction k with
  | zero => intro envs _ _ _; rfl
  | succ k ih =>
      intro envs hk hlen hsome
      rw [downFrom, envLoop]
      cases hget : envs.getD (k + 1) none with
      | none => rw [hget] at hsome; simp at hsome
      | some renv =>
          have hstep : updateRightEnvStep mps mpo envs (k + 1) =
              .ok (envs.set k (some (envContractR renv
                (envTmpR (singleSiteRightIso mps (k + 1)) (getT mpo (k + 1)))))) := by
            unfold updateRightEnvStep singleSiteRightIsoE
            rw [hget]
            rw [if_pos hk]
            rfl
          rw [hstep]
          show (envLoop mps mpo (downFrom k) _).isOk = true
          apply ih
          · omega
          · rw [List.length_set, hlen]
          · have hklen : k < envs.length := by omega
            rw [List.getD_eq_getElem?_getD, List.getElem?_set_self hklen]
            rfl

/-- C8: DMRG construction raises an error exactly when the MPS length
and the MPO length differ (for a non-empty MPS, which every constructed
ExplicitMPS is); on that error the result is just the error value — no
environment state is created. -/
theorem dmrgInit_ok_iff (mps : ExplicitMPS) (mpo : List NDArray) (chiMax : ℕ)
    (cut : ℚ) (mode : String) (hne : mps.tensors.length ≠ 0) :
    ((dmrgInit mps mpo chiMax cut mode).isOk = true ↔ mps.numSites = mpo.length) ∧
    (mps.numSites ≠ mpo.length →
      dmrgInit mps mpo chiMax cut mode =
        .error "ValueError: the MPS and the MPO have different lengths") := by
  have herr : mps.numSites ≠ mpo.length →
      dmrgInit mps mpo chiMax cut mode =
        .error "ValueError: the MPS and the MPO have different lengths" := by
    intro hlen
    unfold dmrgInit
    rw [if_pos hlen]
  refine ⟨⟨?_, ?_⟩, herr⟩
  · intro h
    by_contra hlen
    rw [herr hlen] at h
    simp [Except.isOk, Except.toBool] at h
  · intro hlen
    unfold dmrgInit
    rw [if_neg (fun hc => hc hlen)]
    have hmpo : ¬ (mpo.length = 0) := by
      rw [← hlen]
      exact hne
    rw [if_neg hmpo, if_neg hne]
    have hN1 : mps.numSites - 1 < mps.numSites := by
      have : mps.numSites ≠ 0 := hne
      omega
    have hloop := envLoop_down_ok mps mpo (mps.numSites - 1)
      ((List.replicate mps.numSites (none : Option NDArray)).set (mps.numSites - 1)
        (some (rightBoundaryEnv ((getT mps.tensors 0).dim 0) ((getT mpo 0).dim 0))))
      hN1 (by rw [List.length_set, List.length_replicate]) ?_
    · generalize hE : envLoop mps mpo (downFrom (mps.numSites - 1))
        ((List.replicate mps.numSites (none : Option NDArray)).set (mps.numSites - 1)
          (some (rightBoundaryEnv ((getT mps.tensors 0).dim 0) ((getT mpo 0).dim 0)))) =
        res at hloop ⊢
      cases res with
      | error e => simp [Except.isOk, Except.toBool] at hloop
      | ok v => rfl
    · have hlt : mps.numSites - 1 < (List.replicate mps.numSites
          (none : Option NDArray)).length := by
        rw [List.length_replicate]
        exact hN1
      rw [List.getD_eq_getElem?_getD, List.getElem?_set_self hlt]
      rfl

/-- A uniform zero MPO tensor of shape (2, 2, 2, 2). -/
def mpoW : NDArray := ⟨[2, 2, 2, 2], fun _ => 0⟩

/-- C8 witness: equal lengths succeed, mismatched lengths fail, on a
concrete two-site MPS. -/
theorem dmrgInit_ok_iff_witness :
    (dmrgInit expl2 [mpoW, mpoW] 10 0 "SA").isOk = true ∧
    ¬ ((dmrgInit expl2 [mpoW] 10 0 "SA").isOk = true) := by
  constructor
  · exact (dmrgInit_ok_iff expl2 [mpoW, mpoW] 10 0 "SA" (by norm_num [expl2])).1.mpr
      (by norm_num [expl2, ExplicitMPS.numSites])
  · intro h
    have := (dmrgInit_ok_iff expl2 [mpoW] 10 0 "SA" (by norm_num [expl2])).1.mp h
    norm_num [expl2, ExplicitMPS.numSites] at this

/-- The DMRG state held inside a construction result. -/
def dmrgStateOf (r : Except String DMRGState) : DMRGState :=
  match r with
  | .ok s => s
  | .error _ => default

/-- Entry of an optional environment tensor, 0 when absent. -/
def optEnt (o : Option NDArray) (ix : List ℕ) : ℚ :=
  match o with
  | some t => t.ent ix
  | none => 0

/-- C3, the code's behaviour at the failing input: on a two-site MPS
and an MPO whose first tensor has left virtual dimension D = 2,
construction succeeds; right_environments[N-1] is the right-boundary
identity environment (identity at operator-virtual index D - 1 = 1,
zero at index 0) and right_environments[0] is populated by the
right-to-left pass — but left_environments[0] is also the
right-boundary environment (entry (0,0,0) is 0 and entry (0,1,0) is 1),
not the left-boundary identity-at-index-0 tensor leftBoundaryEnv that
the claim (and the source's dead line 130/132) prescribe, whose entry
(0,0,0) is 1. -/
theorem dmrgInit_left_env_bug :
    (dmrgInit expl2 [mpoW, mpoW] 10 0 "SA").isOk = true ∧
    ((dmrgStateOf (dmrgInit expl2 [mpoW, mpoW] 10 0 "SA")).leftEnvironments.getD 0
      none).isSome = true ∧
    optEnt ((dmrgStateOf (dmrgInit expl2 [mpoW, mpoW] 10 0 "SA")).leftEnvironments.getD
      0 none) [0, 0, 0] = 0 ∧
    optEnt ((dmrgStateOf (dmrgInit expl2 [mpoW, mpoW] 10 0 "SA")).leftEnvironments.getD
      0 none) [0, 1, 0] = 1 ∧
    (leftBoundaryEnv 1 2).ent [0, 0, 0] = 1 ∧
    optEnt ((dmrgStateOf (dmrgInit expl2 [mpoW, mpoW] 10 0 "SA")).rightEnvironments.getD
      1 none) [0, 1, 0] = 1 ∧
    optEnt ((dmrgStateOf (dmrgInit expl2 [mpoW, mpoW] 10 0 "SA")).rightEnvironments.getD
      1 none) [0, 0, 0] = 0 ∧
    ((dmrgStateOf (dmrgInit expl2 [mpoW, mpoW] 10 0 "SA")).rightEnvironments.getD 0
      none).isSome = true := by
  refine ⟨by with_unfolding_all rfl, by with_unfolding_all rfl, by with_unfolding_all rfl,
    by with_unfolding_all rfl, by with_unfolding_all rfl, by with_unfolding_all rfl,
    by with_unfolding_all rfl, by with_unfolding_all rfl⟩
